import Mathlib

/-!
# Courier booking form: session gate, booking list and route ordering

A shallow embedding of `src/App.jsx` (the `BookingApp` component).  The eight
`useState` cells become the fields of `State`; the callbacks registered with
`setTimeout` become a queue of pending closures; every handler is a pure
function on `State`.  `String.prototype.localeCompare` is a library function
whose result depends on the host collation, so it is a parameter
`cmp : String → String → Int` throughout.
-/

namespace BookingApp

/-! ## Data model -/

/-- The object literal built on line 33: `{ pickup, dropoff, customer, timestamp }`. -/
structure Booking where
  pickup : String
  dropoff : String
  customer : String
  timestamp : String
deriving DecidableEq, Repr

/-- The object literal passed to `setUser` on line 28: `{ email }`. -/
structure User where
  email : String
deriving DecidableEq, Repr

/-- The state cells of lines 17-24, in source order, followed by the callbacks
handed to `setTimeout` that have not fired yet (oldest first).  A callback is
the closure of lines 44-47; the only variable it captures is `sorted`. -/
structure State where
  pickup : String
  dropoff : String
  customer : String
  bookings : List Booking
  optimizedRoute : List Booking
  loading : Bool
  user : Option User
  email : String
  timers : List (List Booking)
deriving DecidableEq, Repr

/-- Initial values of the `useState` calls; no timer has been set. -/
def initialState : State :=
  { pickup := "", dropoff := "", customer := "", bookings := [], optimizedRoute := [],
    loading := false, user := none, email := "", timers := [] }

/-! ## Library functions used by the component -/

/-- `String.prototype.includes`: the search string occurs at some position. -/
def includes (s search : String) : Bool :=
  s.toList.tails.any fun t => search.toList.isPrefixOf t

/-- JavaScript `!x` on a string: the empty string is the only falsy one. -/
def isFalsy (s : String) : Bool :=
  decide (s = "")

/-- Insert `x` in front of the first element it does not sort after. -/
def sortInsert {α : Type} (compareFn : α → α → Int) (x : α) : List α → List α
  | [] => [x]
  | y :: ys => if compareFn x y ≤ 0 then x :: y :: ys else y :: sortInsert compareFn x ys

/-- `Array.prototype.sort(compareFn)`: a stable sort; `compareFn a b > 0` puts `a`
after `b`.  Realised as insertion from the right, which is stable. -/
def arraySort {α : Type} (compareFn : α → α → Int) : List α → List α
  | [] => []
  | x :: xs => sortInsert compareFn x (arraySort compareFn xs)

/-! ## Handlers -/

/-- Lines 26-29. -/
def handleLogin (s : State) : State :=
  if !(includes s.email "@") then s
  else { s with user := some { email := s.email } }

/-- Line 43: `[...jobs].sort((a, b) => a.pickup.localeCompare(b.pickup))`.  The
spread builds a fresh array, so `jobs` itself is not reordered. -/
def computeRoute (cmp : String → String → Int) (jobs : List Booking) : List Booking :=
  arraySort (fun a b => cmp a.pickup b.pickup) jobs

/-- Lines 41-48: raise `loading`, sort a copy, and queue the callback that will
publish `sorted`. -/
def optimizeRoute (cmp : String → String → Int) (s : State) (jobs : List Booking) : State :=
  let s1 := { s with loading := true }
  let sorted := computeRoute cmp jobs
  { s1 with timers := s1.timers ++ [sorted] }

/-- Lines 44-47, the body of the deferred callback. -/
def timerCallback (sorted : List Booking) (s : State) : State :=
  { s with optimizedRoute := sorted, loading := false }

/-- Lines 31-39; `now` is the value of `new Date().toISOString()`. -/
def handleBooking (cmp : String → String → Int) (now : String) (s : State) : State :=
  if isFalsy s.pickup || isFalsy s.dropoff || isFalsy s.customer then s
  else
    let newJob : Booking :=
      { pickup := s.pickup, dropoff := s.dropoff, customer := s.customer, timestamp := now }
    let updatedBookings := s.bookings ++ [newJob]
    let s1 := { s with bookings := updatedBookings }
    let s2 := { s1 with pickup := "" }
    let s3 := { s2 with dropoff := "" }
    optimizeRoute cmp s3 updatedBookings

/-- Lines 50-52: the mount effect. -/
def mountEffect (cmp : String → String → Int) (s : State) : State :=
  if s.bookings.length > 0 then optimizeRoute cmp s s.bookings else s

/-- The `i`-th pending callback runs and leaves the queue. -/
def fireTimer (i : Nat) (s : State) : State :=
  match s.timers.get? i with
  | none => s
  | some sorted => timerCallback sorted { s with timers := s.timers.eraseIdx i }

/-! ## Rendering and events -/

/-- Which of the two `return` statements of the component is taken (line 54). -/
inductive View where
  | login
  | booking
deriving DecidableEq, Repr

/-- Line 54: `if (!user)`; `null` is falsy, an object is truthy. -/
def view (s : State) : View :=
  match s.user with
  | none => View.login
  | some _ => View.booking

/-- Everything that can happen to a mounted component: the `onChange` and
`onClick` handlers of the rendered elements, and a pending timeout elapsing. -/
inductive Event where
  | changeEmail (value : String)
  | clickSignIn
  | changeCustomer (value : String)
  | changePickup (value : String)
  | changeDropoff (value : String)
  | clickBookJob (now : String)
  | timeout (i : Nat)
deriving DecidableEq, Repr

/-- The view whose elements carry the handler of the event; `none` for a timeout,
which needs no element. -/
def Event.view : Event → Option View
  | changeEmail _ => some View.login
  | clickSignIn => some View.login
  | changeCustomer _ => some View.booking
  | changePickup _ => some View.booking
  | changeDropoff _ => some View.booking
  | clickBookJob _ => some View.booking
  | timeout _ => none

/-- The handler bound to each event (lines 64, 66, 86, 102, 112, 117, 44). -/
def dispatch (cmp : String → String → Int) (s : State) : Event → State
  | Event.changeEmail v => { s with email := v }
  | Event.clickSignIn => handleLogin s
  | Event.changeCustomer v => { s with customer := v }
  | Event.changePickup v => { s with pickup := v }
  | Event.changeDropoff v => { s with dropoff := v }
  | Event.clickBookJob now => handleBooking cmp now s
  | Event.timeout i => fireTimer i s

/-- One event: an interface event acts only if its element is on screen. -/
def step (cmp : String → String → Int) (s : State) (ev : Event) : State :=
  match ev.view with
  | none => dispatch cmp s ev
  | some v => if v = view s then dispatch cmp s ev else s

/-- The component right after mounting. -/
def mounted (cmp : String → String → Int) : State :=
  mountEffect cmp initialState

/-- Process a sequence of events, oldest first. -/
def run (cmp : String → String → Int) (s : State) (evs : List Event) : State :=
  evs.foldl (step cmp) s

/-- States the mounted component can be in; pending callbacks may fire in any order. -/
def Reachable (cmp : String → String → Int) (s : State) : Prop :=
  ∃ evs : List Event, s = run cmp (mounted cmp) evs

/-- A timeout event that fires the oldest pending callback. -/
def Event.inOrder : Event → Bool
  | timeout i => i == 0
  | _ => true

/-- Reachable states when callbacks fire in the order they were scheduled, as
timers of equal delay do. -/
def ReachableInOrder (cmp : String → String → Int) (s : State) : Prop :=
  ∃ evs : List Event, (∀ ev ∈ evs, ev.inOrder = true) ∧ s = run cmp (mounted cmp) evs

/-- A comparator usable with `sort`: "not after" is total and transitive. -/
structure Consistent (cmp : String → String → Int) : Prop where
  total : ∀ a b, cmp a b ≤ 0 ∨ cmp b a ≤ 0
  trans : ∀ a b c, cmp a b ≤ 0 → cmp b c ≤ 0 → cmp a c ≤ 0

/-- Compare two code point sequences position by position; a proper initial
segment sorts first. -/
def compareCodes : List Char → List Char → Int
  | [], [] => 0
  | [], _ :: _ => -1
  | _ :: _, [] => 1
  | a :: as, b :: bs =>
    if a.toNat < b.toNat then -1
    else if b.toNat < a.toNat then 1
    else compareCodes as bs

/-- Ordinal comparison of strings, a sample collation used to instantiate `cmp`. -/
def ordinalCompare (a b : String) : Int :=
  compareCodes a.toList b.toList

/-- Sign in, then submit one booking; its callback is still pending. -/
def oneBookingTrace : List Event :=
  [Event.changeEmail "a@b.com", Event.clickSignIn,
   Event.changeCustomer "Joe", Event.changePickup "Zebra St", Event.changeDropoff "Mill Rd",
   Event.clickBookJob "t1"]

/-- Sign in, submit two bookings in quick succession, then let the first
callback elapse while the second is still pending. -/
def overlappingTrace : List Event :=
  oneBookingTrace ++
  [Event.changePickup "Alpha Rd", Event.changeDropoff "Lake St", Event.clickBookJob "t2",
   Event.timeout 0]

/-- The first booking of the sample traces. -/
def zebraJob : Booking :=
  { pickup := "Zebra St", dropoff := "Mill Rd", customer := "Joe", timestamp := "t1" }

/-- The second booking of `overlappingTrace`. -/
def alphaJob : Booking :=
  { pickup := "Alpha Rd", dropoff := "Lake St", customer := "Joe", timestamp := "t2" }

/-- Sign in and submit two bookings in quick succession; both callbacks are
still pending. -/
def twoBookingsTrace : List Event :=
  oneBookingTrace ++
  [Event.changePickup "Alpha Rd", Event.changeDropoff "Lake St", Event.clickBookJob "t2"]

/-- Sign in, submit one booking, let its callback elapse, then submit a second
booking; only the second callback is pending. -/
def sequentialTrace : List Event :=
  oneBookingTrace ++
  [Event.timeout 0,
   Event.changePickup "Alpha Rd", Event.changeDropoff "Lake St", Event.clickBookJob "t2"]

/-- The state on which the second submission of `sequentialTrace` calls
`optimizeRoute` (line 38, after the setters of lines 35-37): the first route
is displayed and no callback is pending. -/
def sequentialTrigger : State :=
  { pickup := "", dropoff := "", customer := "Joe", bookings := [zebraJob, alphaJob],
    optimizedRoute := [zebraJob], loading := false, user := some { email := "a@b.com" },
    email := "a@b.com", timers := [] }

/-- The state on which the second submission of `twoBookingsTrace` calls
`optimizeRoute`: the callback of the first submission is still pending. -/
def overlappingTrigger : State :=
  { pickup := "", dropoff := "", customer := "Joe", bookings := [zebraJob, alphaJob],
    optimizedRoute := [], loading := true, user := some { email := "a@b.com" },
    email := "a@b.com", timers := [[zebraJob]] }

/-- When callbacks fire in order, the newest pending callback carries the
route of the current bookings; with none pending, the displayed route is it. -/
def Settled (cmp : String → String → Int) (s : State) : Prop :=
  (s.timers = [] → s.optimizedRoute = computeRoute cmp s.bookings) ∧
  (∀ l, s.timers.getLast? = some l → l = computeRoute cmp s.bookings)

/-! ## Basic facts -/

theorem includes_at_iff (e : String) : includes e "@" = true ↔ '@' ∈ e.toList := by
  unfold includes
  generalize e.toList = l
  have h : ("@" : String).toList = ['@'] := rfl
  rw [h]
  induction l with
  | nil => simp [List.isPrefixOf]
  | cons c cs ih =>
    have hc : List.isPrefixOf ['@'] (c :: cs) = ('@' == c) := by
      simp [List.isPrefixOf]
    rw [List.tails, List.any_cons, Bool.or_eq_true, hc, List.mem_cons]
    simp only [beq_iff_eq]
    exact or_congr Iff.rfl ih

theorem isFalsy_iff (s : String) : isFalsy s = true ↔ s = "" := by
  simp [isFalsy]

/-- On a submission with all three fields filled in, `handleBooking` takes its
second branch. -/
theorem handleBooking_of_filled (cmp : String → String → Int) (now : String) (s : State)
    (hp : s.pickup ≠ "") (hd : s.dropoff ≠ "") (hc : s.customer ≠ "") :
    handleBooking cmp now s =
      { s with
        bookings := s.bookings ++ [⟨s.pickup, s.dropoff, s.customer, now⟩]
        pickup := ""
        dropoff := ""
        loading := true
        timers := s.timers ++
          [computeRoute cmp (s.bookings ++ [⟨s.pickup, s.dropoff, s.customer, now⟩])] } := by
  simp [handleBooking, optimizeRoute, isFalsy, hp, hd, hc]

/-! ## The session gate -/

/-- C1: from the Anonymous state (`user = null`), `handleLogin` authenticates
exactly when the email field contains the character `@`; then the session
stores that email verbatim and nothing else changes, and otherwise the whole
state is unchanged. -/
theorem handleLogin_authenticates_iff (s : State) (h : s.user = none) :
    ((handleLogin s).user ≠ none ↔ '@' ∈ s.email.toList) ∧
    ('@' ∈ s.email.toList →
      handleLogin s = { s with user := some { email := s.email } }) ∧
    ('@' ∉ s.email.toList → handleLogin s = s ∧ (handleLogin s).user = none) := by
  by_cases hat : '@' ∈ s.email.toList
  · have hi : includes s.email "@" = true := (includes_at_iff _).2 hat
    have hl : handleLogin s = { s with user := some { email := s.email } } := by
      simp [handleLogin, hi]
    refine ⟨⟨fun _ => hat, fun _ => ?_⟩, fun _ => hl, fun hn => absurd hat hn⟩
    rw [hl]
    exact Option.some_ne_none _
  · have hi : includes s.email "@" = false := by
      cases hb : includes s.email "@"
      · rfl
      · exact absurd ((includes_at_iff _).1 hb) hat
    have hl : handleLogin s = s := by
      simp [handleLogin, hi]
    refine ⟨⟨fun hu => ?_, fun ha => absurd ha hat⟩, fun ha => absurd ha hat,
      fun _ => ⟨hl, ?_⟩⟩
    · rw [hl] at hu
      exact absurd h hu
    · rw [hl]
      exact h

theorem handleLogin_authenticates_iff_witness :
    handleLogin { initialState with email := "a@b.com" } =
        { initialState with email := "a@b.com", user := some { email := "a@b.com" } } ∧
      handleLogin { initialState with email := "not-an-email" } =
        { initialState with email := "not-an-email" } :=
  ⟨(handleLogin_authenticates_iff { initialState with email := "a@b.com" } rfl).2.1
      (by decide),
   ((handleLogin_authenticates_iff { initialState with email := "not-an-email" } rfl).2.2
      (by decide)).1⟩

/-! ## Booking submission -/

/-- C2: when the pickup, dropoff or customer field is empty, `handleBooking`
returns the state it was given: the bookings, the displayed route, the loading
flag, the three input fields and the queue of pending callbacks are all as
before. -/
theorem handleBooking_missing_field (cmp : String → String → Int) (now : String) (s : State)
    (h : s.customer = "" ∨ s.pickup = "" ∨ s.dropoff = "") :
    handleBooking cmp now s = s ∧
    (handleBooking cmp now s).bookings = s.bookings ∧
    (handleBooking cmp now s).bookings.length = s.bookings.length ∧
    (handleBooking cmp now s).optimizedRoute = s.optimizedRoute ∧
    (handleBooking cmp now s).loading = s.loading ∧
    (handleBooking cmp now s).timers = s.timers := by
  have key : handleBooking cmp now s = s := by
    rcases h with h | h | h <;> simp [handleBooking, isFalsy, h]
  simp [key]

theorem handleBooking_missing_field_witness :
    (handleBooking ordinalCompare "2024-01-01T00:00:00.000Z"
      { initialState with customer := "Joe's Auto Repairs", pickup := "1 Main St" }).bookings.length
      = 0 :=
  (handleBooking_missing_field ordinalCompare "2024-01-01T00:00:00.000Z"
    { initialState with customer := "Joe's Auto Repairs", pickup := "1 Main St" }
    (Or.inr (Or.inr rfl))).2.2.1

/-- C3: with all three fields non-empty, `handleBooking` at time `now` turns the
bookings list `bs` into `bs ++ [{customer, pickup, dropoff, timestamp = now}]`:
one element longer, the new booking last, every earlier booking in place. -/
theorem handleBooking_appends (cmp : String → String → Int) (now : String) (s : State)
    (hc : s.customer ≠ "") (hp : s.pickup ≠ "") (hd : s.dropoff ≠ "") :
    (handleBooking cmp now s).bookings =
      s.bookings ++ [{ pickup := s.pickup, dropoff := s.dropoff,
                       customer := s.customer, timestamp := now }] ∧
    (handleBooking cmp now s).bookings.length = s.bookings.length + 1 ∧
    (handleBooking cmp now s).bookings.getLast? =
      some { pickup := s.pickup, dropoff := s.dropoff,
             customer := s.customer, timestamp := now } ∧
    (∀ i, i < s.bookings.length →
      (handleBooking cmp now s).bookings.get? i = s.bookings.get? i) := by
  rw [handleBooking_of_filled cmp now s hp hd hc]
  refine ⟨rfl, by simp, by simp, ?_⟩
  intro i hi
  simp [List.getElem?_append_left hi]

theorem handleBooking_appends_witness :
    (handleBooking ordinalCompare "2024-01-01T00:00:00.000Z"
      { initialState with customer := "Joe", pickup := "Zebra St", dropoff := "Mill Rd" }).bookings
      = [{ pickup := "Zebra St", dropoff := "Mill Rd", customer := "Joe",
           timestamp := "2024-01-01T00:00:00.000Z" }] :=
  (handleBooking_appends ordinalCompare "2024-01-01T00:00:00.000Z"
    { initialState with customer := "Joe", pickup := "Zebra St", dropoff := "Mill Rd" }
    (by decide) (by decide) (by decide)).1

/-- C8: a successful submission empties the pickup and dropoff input fields and
leaves the customer input field, the session and the login email field as they
were. -/
theorem handleBooking_clears_pickup_dropoff (cmp : String → String → Int) (now : String)
    (s : State) (hc : s.customer ≠ "") (hp : s.pickup ≠ "") (hd : s.dropoff ≠ "") :
    (handleBooking cmp now s).pickup = "" ∧
    (handleBooking cmp now s).dropoff = "" ∧
    (handleBooking cmp now s).customer = s.customer ∧
    (handleBooking cmp now s).user = s.user ∧
    (handleBooking cmp now s).email = s.email := by
  rw [handleBooking_of_filled cmp now s hp hd hc]
  exact ⟨rfl, rfl, rfl, rfl, rfl⟩

theorem handleBooking_clears_pickup_dropoff_witness :
    (handleBooking ordinalCompare "2024-01-01T00:00:00.000Z"
      { initialState with customer := "Joe", pickup := "Zebra St", dropoff := "Mill Rd",
                          user := some { email := "a@b.com" }, email := "a@b.com" }).customer
      = "Joe" :=
  (handleBooking_clears_pickup_dropoff ordinalCompare "2024-01-01T00:00:00.000Z"
    { initialState with customer := "Joe", pickup := "Zebra St", dropoff := "Mill Rd",
                        user := some { email := "a@b.com" }, email := "a@b.com" }
    (by decide) (by decide) (by decide)).2.2.1

/-! ## The sort -/

section ArraySort

variable {α : Type} (f : α → α → Int)

theorem sortInsert_perm (x : α) (l : List α) : (sortInsert f x l).Perm (x :: l) := by
  induction l with
  | nil => exact List.Perm.refl _
  | cons y ys ih =>
    unfold sortInsert
    split
    · exact List.Perm.refl _
    · exact (List.Perm.cons y ih).trans (List.Perm.swap x y ys)

theorem arraySort_perm (l : List α) : (arraySort f l).Perm l := by
  induction l with
  | nil => exact List.Perm.refl _
  | cons x xs ih =>
    exact (sortInsert_perm f x (arraySort f xs)).trans (List.Perm.cons x ih)

theorem mem_sortInsert {x y : α} {l : List α} (h : y ∈ sortInsert f x l) : y = x ∨ y ∈ l := by
  have := (sortInsert_perm f x l).mem_iff.1 h
  simpa using this

theorem sortInsert_pairwise (htot : ∀ a b, f a b ≤ 0 ∨ f b a ≤ 0)
    (htr : ∀ a b c, f a b ≤ 0 → f b c ≤ 0 → f a c ≤ 0) (x : α) (l : List α)
    (hl : l.Pairwise fun a b => f a b ≤ 0) :
    (sortInsert f x l).Pairwise fun a b => f a b ≤ 0 := by
  induction l with
  | nil => simp [sortInsert]
  | cons y ys ih =>
    obtain ⟨hy, hys⟩ := List.pairwise_cons.1 hl
    unfold sortInsert
    split
    · rename_i hxy
      refine List.pairwise_cons.2 ⟨?_, hl⟩
      intro z hz
      rcases List.mem_cons.1 hz with rfl | hz
      · exact hxy
      · exact htr _ _ _ hxy (hy z hz)
    · rename_i hxy
      have hyx : f y x ≤ 0 := (htot x y).resolve_left hxy
      refine List.pairwise_cons.2 ⟨?_, ih hys⟩
      intro z hz
      rcases mem_sortInsert f hz with rfl | hz
      · exact hyx
      · exact hy z hz

theorem arraySort_pairwise (htot : ∀ a b, f a b ≤ 0 ∨ f b a ≤ 0)
    (htr : ∀ a b c, f a b ≤ 0 → f b c ≤ 0 → f a c ≤ 0) (l : List α) :
    (arraySort f l).Pairwise fun a b => f a b ≤ 0 := by
  induction l with
  | nil => exact List.Pairwise.nil
  | cons x xs ih => exact sortInsert_pairwise f htot htr x _ ih

theorem sublist_sortInsert (x : α) (l : List α) : l.Sublist (sortInsert f x l) := by
  induction l with
  | nil => exact List.nil_sublist _
  | cons y ys ih =>
    unfold sortInsert
    split
    · exact List.sublist_cons_self x _
    · exact ih.cons₂ y

theorem cons_sublist_sortInsert (x : α) (c l : List α) (hc : c.Sublist l)
    (hx : ∀ y ∈ c, f x y ≤ 0) : (x :: c).Sublist (sortInsert f x l) := by
  induction l generalizing c with
  | nil =>
    rw [List.sublist_nil.1 hc]
    simp [sortInsert]
  | cons y ys ih =>
    unfold sortInsert
    split
    · exact hc.cons₂ x
    · rename_i hxy
      cases hc with
      | cons _ h => exact (ih c h hx).cons y
      | cons₂ _ h => exact absurd (hx y (List.mem_cons_self _ _)) hxy

/-- Stability: a subsequence of the input that is already in order survives as a
subsequence of the output. -/
theorem sublist_arraySort (c l : List α) (hc : c.Sublist l)
    (hp : c.Pairwise fun a b => f a b ≤ 0) : c.Sublist (arraySort f l) := by
  induction l generalizing c with
  | nil => simpa [arraySort] using hc
  | cons x xs ih =>
    cases hc with
    | cons _ h => exact (ih c h hp).trans (sublist_sortInsert f x _)
    | cons₂ _ h =>
      obtain ⟨hx, hrest⟩ := List.pairwise_cons.1 hp
      exact cons_sublist_sortInsert f x _ _ (ih _ h hrest) hx

end ArraySort

theorem compareCodes_total (a b : List Char) :
    compareCodes a b ≤ 0 ∨ compareCodes b a ≤ 0 := by
  induction a generalizing b with
  | nil => cases b <;> simp [compareCodes]
  | cons x xs ih =>
    cases b with
    | nil => simp [compareCodes]
    | cons y ys =>
      have hrec := ih ys
      simp only [compareCodes]
      split_ifs <;> omega

theorem compareCodes_trans (a b c : List Char) :
    compareCodes a b ≤ 0 → compareCodes b c ≤ 0 → compareCodes a c ≤ 0 := by
  induction a generalizing b c with
  | nil => cases c <;> simp [compareCodes]
  | cons x xs ih =>
    cases b with
    | nil => simp [compareCodes]
    | cons y ys =>
      cases c with
      | nil =>
        intro _ h
        simp [compareCodes] at h
      | cons z zs =>
        simp only [compareCodes]
        intro h1 h2
        split_ifs at h1 h2 ⊢ <;> first | omega | exact ih _ _ h1 h2

theorem ordinalCompare_consistent : Consistent ordinalCompare where
  total _ _ := compareCodes_total _ _
  trans _ _ _ := compareCodes_trans _ _ _

/-! ## Route ordering -/

/-- C4: for a consistent collation, the list `optimizeRoute` computes is in
ascending pickup order (each output is not after the next one, and not after
any later one), and the sort is stable: two bookings whose pickups compare
equal keep their relative order, and so does any run of input bookings whose
pickups all compare equal.  When the collation puts "Zebra St" after
"Alpha Rd", bookings submitted with those pickups in that order come out as
"Alpha Rd" then "Zebra St". -/
theorem computeRoute_sorted_stable (cmp : String → String → Int) (hc : Consistent cmp)
    (hza : 0 < cmp "Zebra St" "Alpha Rd") (jobs : List Booking) :
    (computeRoute cmp jobs).Chain' (fun x y => cmp x.pickup y.pickup ≤ 0) ∧
    (computeRoute cmp jobs).Pairwise (fun x y => cmp x.pickup y.pickup ≤ 0) ∧
    (∀ a b : Booking, cmp a.pickup b.pickup = 0 →
      [a, b].Sublist jobs → [a, b].Sublist (computeRoute cmp jobs)) ∧
    (∀ c : List Booking, c.Pairwise (fun x y => cmp x.pickup y.pickup = 0) →
      c.Sublist jobs → c.Sublist (computeRoute cmp jobs)) ∧
    (∀ z a : Booking, z.pickup = "Zebra St" → a.pickup = "Alpha Rd" →
      computeRoute cmp [z, a] = [a, z]) := by
  have hpw : (computeRoute cmp jobs).Pairwise (fun x y => cmp x.pickup y.pickup ≤ 0) :=
    arraySort_pairwise (fun a b : Booking => cmp a.pickup b.pickup)
      (fun _ _ => hc.total _ _) (fun _ _ _ => hc.trans _ _ _) jobs
  refine ⟨List.Pairwise.chain' hpw, hpw, ?_, ?_, ?_⟩
  · intro a b hab hsub
    exact sublist_arraySort (fun a b : Booking => cmp a.pickup b.pickup) [a, b] jobs hsub
      (List.pairwise_pair.2 (le_of_eq hab))
  · intro c hpc hsub
    exact sublist_arraySort (fun a b : Booking => cmp a.pickup b.pickup) c jobs hsub
      (hpc.imp fun hxy => le_of_eq hxy)
  · intro z a hz ha
    have hnot : ¬ cmp z.pickup a.pickup ≤ 0 := by
      rw [hz, ha]
      exact not_le.2 hza
    simp [computeRoute, arraySort, sortInsert, hnot]

theorem computeRoute_sorted_stable_witness :
    computeRoute ordinalCompare
        [{ pickup := "Zebra St", dropoff := "Mill Rd", customer := "Joe", timestamp := "t1" },
         { pickup := "Alpha Rd", dropoff := "Lake St", customer := "Ann", timestamp := "t2" }] =
      [{ pickup := "Alpha Rd", dropoff := "Lake St", customer := "Ann", timestamp := "t2" },
       { pickup := "Zebra St", dropoff := "Mill Rd", customer := "Joe", timestamp := "t1" }] :=
  (computeRoute_sorted_stable ordinalCompare ordinalCompare_consistent (by decide)
    [{ pickup := "Zebra St", dropoff := "Mill Rd", customer := "Joe", timestamp := "t1" },
     { pickup := "Alpha Rd", dropoff := "Lake St", customer := "Ann", timestamp := "t2" }]).2.2.2.2
    _ _ rfl rfl

/-- C5: the list `optimizeRoute` computes is a permutation of its input (equal
as multisets, so nothing is dropped, duplicated or altered), and triggering the
computation leaves the bookings list it was given, and the one in the state,
as they were. -/
theorem computeRoute_perm (cmp : String → String → Int) (jobs : List Booking) :
    (computeRoute cmp jobs).Perm jobs ∧
    ((computeRoute cmp jobs : List Booking) : Multiset Booking) = (jobs : Multiset Booking) ∧
    (computeRoute cmp jobs).length = jobs.length ∧
    (∀ s : State, (optimizeRoute cmp s jobs).bookings = s.bookings) ∧
    (∀ s : State, (optimizeRoute cmp { s with bookings := jobs } jobs).bookings = jobs) := by
  have hp : (computeRoute cmp jobs).Perm jobs := arraySort_perm _ jobs
  exact ⟨hp, Multiset.coe_eq_coe.2 hp, hp.length_eq, fun _ => rfl, fun _ => rfl⟩

/-! ## Reachable states -/

theorem mounted_eq (cmp : String → String → Int) : mounted cmp = initialState := by
  simp [mounted, mountEffect, initialState]

theorem run_snoc (cmp : String → String → Int) (s : State) (evs : List Event) (ev : Event) :
    run cmp s (evs ++ [ev]) = step cmp (run cmp s evs) ev := by
  simp [run, List.foldl_append]

/-- Induction over the events that led to a state. -/
theorem reachable_induction (cmp : String → String → Int) (P : State → Prop)
    (h0 : P initialState) (hstep : ∀ s ev, P s → P (step cmp s ev)) :
    ∀ s, Reachable cmp s → P s := by
  rintro s ⟨evs, rfl⟩
  induction evs using List.reverseRecOn with
  | nil => simpa [run, mounted_eq] using h0
  | append_singleton evs ev ih =>
    rw [run_snoc]
    exact hstep _ _ ih

/-- Induction over the events that led to a state, callbacks firing in order. -/
theorem reachableInOrder_induction (cmp : String → String → Int) (P : State → Prop)
    (h0 : P initialState)
    (hstep : ∀ s ev, ev.inOrder = true → P s → P (step cmp s ev)) :
    ∀ s, ReachableInOrder cmp s → P s := by
  rintro s ⟨evs, hord, rfl⟩
  induction evs using List.reverseRecOn with
  | nil => simpa [run, mounted_eq] using h0
  | append_singleton evs ev ih =>
    rw [run_snoc]
    refine hstep _ _ (hord ev (by simp)) (ih ?_)
    intro e he
    exact hord e (by simp [he])

theorem handleLogin_cases (s : State) :
    handleLogin s = s ∨ handleLogin s = { s with user := some { email := s.email } } := by
  unfold handleLogin
  split
  · exact Or.inl rfl
  · exact Or.inr rfl

theorem handleBooking_cases (cmp : String → String → Int) (now : String) (s : State) :
    handleBooking cmp now s = s ∨
    handleBooking cmp now s =
      { s with
        bookings := s.bookings ++ [⟨s.pickup, s.dropoff, s.customer, now⟩]
        pickup := ""
        dropoff := ""
        loading := true
        timers := s.timers ++
          [computeRoute cmp (s.bookings ++ [⟨s.pickup, s.dropoff, s.customer, now⟩])] } := by
  by_cases hp : s.pickup = ""
  · exact Or.inl (by simp [handleBooking, isFalsy, hp])
  · by_cases hd : s.dropoff = ""
    · exact Or.inl (by simp [handleBooking, isFalsy, hd])
    · by_cases hc : s.customer = ""
      · exact Or.inl (by simp [handleBooking, isFalsy, hc])
      · exact Or.inr (handleBooking_of_filled cmp now s hp hd hc)

theorem fireTimer_cases (i : Nat) (s : State) :
    (s.timers.get? i = none ∧ fireTimer i s = s) ∨
    ∃ sorted, s.timers.get? i = some sorted ∧
      fireTimer i s =
        { s with optimizedRoute := sorted, loading := false, timers := s.timers.eraseIdx i } := by
  unfold fireTimer
  cases h : s.timers.get? i with
  | none => exact Or.inl ⟨rfl, rfl⟩
  | some sorted => exact Or.inr ⟨sorted, rfl, rfl⟩

theorem get?_middle {β : Type} (before after : List β) (x : β) :
    (before ++ x :: after).get? before.length = some x := by
  induction before with
  | nil => rfl
  | cons b bs ih => simpa using ih

theorem eraseIdx_middle {β : Type} (before after : List β) (x : β) :
    (before ++ x :: after).eraseIdx before.length = before ++ after := by
  induction before with
  | nil => rfl
  | cons b bs ih => simpa using ih

/-- While nobody is signed in there are no bookings, no route and no pending
callback, and this survives every event. -/
theorem anonymous_step (cmp : String → String → Int) (s : State) (ev : Event)
    (h : s.user = none → s.bookings = [] ∧ s.optimizedRoute = [] ∧ s.timers = []) :
    (step cmp s ev).user = none →
      (step cmp s ev).bookings = [] ∧ (step cmp s ev).optimizedRoute = [] ∧
        (step cmp s ev).timers = [] := by
  cases hu : s.user with
  | none =>
    obtain ⟨hb, hr, ht⟩ := h hu
    cases ev with
    | changeEmail v =>
      intro _
      simp [step, Event.view, view, hu, dispatch, hb, hr, ht]
    | clickSignIn =>
      simp only [step, Event.view, view, hu, dispatch, if_true]
      rcases handleLogin_cases s with hl | hl <;> rw [hl] <;> simp [hb, hr, ht]
    | changeCustomer v => intro _; simp [step, Event.view, view, hu, hb, hr, ht]
    | changePickup v => intro _; simp [step, Event.view, view, hu, hb, hr, ht]
    | changeDropoff v => intro _; simp [step, Event.view, view, hu, hb, hr, ht]
    | clickBookJob now => intro _; simp [step, Event.view, view, hu, hb, hr, ht]
    | timeout i =>
      intro _
      simp [step, Event.view, dispatch, fireTimer, ht, hb, hr]
  | some u =>
    intro hnone
    exfalso
    revert hnone
    cases ev with
    | changeEmail v => simp [step, Event.view, view, hu]
    | clickSignIn => simp [step, Event.view, view, hu]
    | changeCustomer v => simp [step, Event.view, view, hu, dispatch]
    | changePickup v => simp [step, Event.view, view, hu, dispatch]
    | changeDropoff v => simp [step, Event.view, view, hu, dispatch]
    | clickBookJob now =>
      simp only [step, Event.view, view, hu, dispatch, if_true]
      rcases handleBooking_cases cmp now s with hl | hl <;> rw [hl] <;> simp [hu]
    | timeout i =>
      simp only [step, Event.view, dispatch]
      rcases fireTimer_cases i s with ⟨_, hl⟩ | ⟨sorted, _, hl⟩ <;> rw [hl] <;> simp [hu]

theorem settled_initial (cmp : String → String → Int) : Settled cmp initialState := by
  constructor
  · intro _
    rfl
  · intro l hl
    simp [initialState] at hl

theorem settled_step (cmp : String → String → Int) (s : State) (ev : Event)
    (hord : ev.inOrder = true) (h : Settled cmp s) : Settled cmp (step cmp s ev) := by
  have keep : ∀ s' : State, s'.timers = s.timers → s'.bookings = s.bookings →
      s'.optimizedRoute = s.optimizedRoute → Settled cmp s' := by
    intro s' ht hb hr
    unfold Settled
    rw [ht, hb, hr]
    exact h
  cases ev with
  | changeEmail v =>
    simp only [step, Event.view, dispatch]
    split
    · exact keep _ rfl rfl rfl
    · exact h
  | clickSignIn =>
    simp only [step, Event.view, dispatch]
    split
    · rcases handleLogin_cases s with hl | hl <;> rw [hl]
      · exact h
      · exact keep _ rfl rfl rfl
    · exact h
  | changeCustomer v =>
    simp only [step, Event.view, dispatch]
    split
    · exact keep _ rfl rfl rfl
    · exact h
  | changePickup v =>
    simp only [step, Event.view, dispatch]
    split
    · exact keep _ rfl rfl rfl
    · exact h
  | changeDropoff v =>
    simp only [step, Event.view, dispatch]
    split
    · exact keep _ rfl rfl rfl
    · exact h
  | clickBookJob now =>
    simp only [step, Event.view, dispatch]
    split
    · rcases handleBooking_cases cmp now s with hl | hl <;> rw [hl]
      · exact h
      · constructor
        · intro ht
          simp at ht
        · intro l hl'
          dsimp only at hl'
          rw [List.getLast?_concat, Option.some.injEq] at hl'
          exact hl'.symm
    · exact h
  | timeout i =>
    have hi : i = 0 := by simpa [Event.inOrder] using hord
    subst hi
    simp only [step, Event.view, dispatch]
    rcases fireTimer_cases 0 s with ⟨_, hl⟩ | ⟨sorted, hget, hl⟩ <;> rw [hl]
    · exact h
    · cases hts : s.timers with
      | nil => simp [hts] at hget
      | cons t rest =>
        have ht : t = sorted := by simpa [hts] using hget
        subst ht
        cases rest with
        | nil =>
          constructor
          · intro _
            exact h.2 t (by simp [hts])
          · intro l hl'
            simp at hl'
        | cons r rs =>
          constructor
          · intro hnil
            simp at hnil
          · intro l hl'
            refine h.2 l ?_
            rw [hts]
            simpa [List.getLast?_cons_cons] using hl'

theorem settled_of_reachableInOrder (cmp : String → String → Int) (s : State)
    (h : ReachableInOrder cmp s) : Settled cmp s :=
  reachableInOrder_induction cmp (Settled cmp) (settled_initial cmp)
    (fun s ev hord hs => settled_step cmp s ev hord hs) s h

/-! ## Invariants of the running component -/

/-- C6, as the code has it: in every state reached with callbacks firing in the
order they were scheduled and in which no route callback is pending, the
displayed route is a permutation of the current bookings. -/
theorem route_perm_when_no_callback_pending (cmp : String → String → Int) (s : State)
    (h : ReachableInOrder cmp s) (hq : s.timers = []) :
    s.optimizedRoute.Perm s.bookings := by
  rw [(settled_of_reachableInOrder cmp s h).1 hq]
  exact arraySort_perm _ _

theorem route_perm_when_no_callback_pending_witness :
    (run ordinalCompare (mounted ordinalCompare)
        (overlappingTrace ++ [Event.timeout 0])).optimizedRoute.Perm
      (run ordinalCompare (mounted ordinalCompare)
        (overlappingTrace ++ [Event.timeout 0])).bookings :=
  route_perm_when_no_callback_pending ordinalCompare
    (run ordinalCompare (mounted ordinalCompare) (overlappingTrace ++ [Event.timeout 0]))
    ⟨overlappingTrace ++ [Event.timeout 0], by decide, rfl⟩ (by decide)

/-- C6 as stated fails: right after the first booking is submitted the bookings
list holds it while the displayed route is still empty. -/
theorem route_not_perm_while_loading :
    Reachable ordinalCompare (run ordinalCompare (mounted ordinalCompare) oneBookingTrace) ∧
    (run ordinalCompare (mounted ordinalCompare) oneBookingTrace).bookings = [zebraJob] ∧
    (run ordinalCompare (mounted ordinalCompare) oneBookingTrace).optimizedRoute = [] ∧
    ¬ (run ordinalCompare (mounted ordinalCompare) oneBookingTrace).optimizedRoute.Perm
        (run ordinalCompare (mounted ordinalCompare) oneBookingTrace).bookings := by
  have hb : (run ordinalCompare (mounted ordinalCompare) oneBookingTrace).bookings =
      [zebraJob] := by decide
  have hr : (run ordinalCompare (mounted ordinalCompare) oneBookingTrace).optimizedRoute =
      [] := by decide
  refine ⟨⟨oneBookingTrace, rfl⟩, hb, hr, ?_⟩
  rw [hb, hr]
  intro hperm
  simpa using hperm.length_eq

/-- C7: in every reachable state, an Anonymous session has no bookings and no
route, so a non-empty bookings list implies a signed-in user; and a click on
"Book Job" changes the state only when a user is set. -/
theorem booking_requires_authentication (cmp : String → String → Int) (s : State)
    (h : Reachable cmp s) :
    (s.user = none → s.bookings = [] ∧ s.optimizedRoute = []) ∧
    (s.bookings ≠ [] → s.user ≠ none) ∧
    (∀ now, s.user = none → step cmp s (Event.clickBookJob now) = s) ∧
    (∀ now, step cmp s (Event.clickBookJob now) ≠ s → s.user ≠ none) := by
  have inv : s.user = none → s.bookings = [] ∧ s.optimizedRoute = [] ∧ s.timers = [] :=
    reachable_induction cmp
      (fun s => s.user = none → s.bookings = [] ∧ s.optimizedRoute = [] ∧ s.timers = [])
      (fun _ => ⟨rfl, rfl, rfl⟩) (fun s ev hs => anonymous_step cmp s ev hs) s h
  have gate : ∀ now, s.user = none → step cmp s (Event.clickBookJob now) = s := by
    intro now hu
    simp [step, Event.view, view, hu]
  refine ⟨fun hu => ⟨(inv hu).1, (inv hu).2.1⟩, fun hne hu => hne (inv hu).1, gate, ?_⟩
  intro now hne hu
  exact hne (gate now hu)

theorem booking_requires_authentication_witness :
    (run ordinalCompare (mounted ordinalCompare) oneBookingTrace).bookings ≠ [] ∧
    (run ordinalCompare (mounted ordinalCompare) oneBookingTrace).user ≠ none :=
  ⟨by decide,
   (booking_requires_authentication ordinalCompare
      (run ordinalCompare (mounted ordinalCompare) oneBookingTrace)
      ⟨oneBookingTrace, rfl⟩).2.1 (by decide)⟩

/-- An interface event never touches the displayed route, never lowers
`loading`, and only ever adds callbacks behind the pending ones. -/
theorem interface_step_frame (cmp : String → String → Int) (s1 : State) (ev : Event)
    (hev : ev.view ≠ none) :
    (step cmp s1 ev).optimizedRoute = s1.optimizedRoute ∧
    (s1.loading = true → (step cmp s1 ev).loading = true) ∧
    ∃ extra, (step cmp s1 ev).timers = s1.timers ++ extra := by
  have same : ∀ s2 : State, s2.optimizedRoute = s1.optimizedRoute → s2.loading = s1.loading →
      s2.timers = s1.timers →
      s2.optimizedRoute = s1.optimizedRoute ∧ (s1.loading = true → s2.loading = true) ∧
        ∃ extra, s2.timers = s1.timers ++ extra := by
    intro s2 hr hl ht
    exact ⟨hr, fun h => hl.trans h, [], by simp [ht]⟩
  cases ev with
  | changeEmail v =>
    simp only [step, Event.view, dispatch]
    split <;> exact same _ rfl rfl rfl
  | clickSignIn =>
    simp only [step, Event.view, dispatch]
    split
    · rcases handleLogin_cases s1 with hl | hl <;> rw [hl] <;> exact same _ rfl rfl rfl
    · exact same _ rfl rfl rfl
  | changeCustomer v =>
    simp only [step, Event.view, dispatch]
    split <;> exact same _ rfl rfl rfl
  | changePickup v =>
    simp only [step, Event.view, dispatch]
    split <;> exact same _ rfl rfl rfl
  | changeDropoff v =>
    simp only [step, Event.view, dispatch]
    split <;> exact same _ rfl rfl rfl
  | clickBookJob now =>
    simp only [step, Event.view, dispatch]
    split
    · rcases handleBooking_cases cmp now s1 with hl | hl <;> rw [hl]
      · exact same _ rfl rfl rfl
      · exact ⟨rfl, fun _ => rfl, _, rfl⟩
    · exact same _ rfl rfl rfl
  | timeout i => exact absurd rfl hev

/-- The frame of `interface_step_frame` over a whole run of interface events. -/
theorem interface_run_frame (cmp : String → String → Int) (evs : List Event) (s1 : State)
    (hev : ∀ ev ∈ evs, ev.view ≠ none) :
    (run cmp s1 evs).optimizedRoute = s1.optimizedRoute ∧
    (s1.loading = true → (run cmp s1 evs).loading = true) ∧
    ∃ extra, (run cmp s1 evs).timers = s1.timers ++ extra := by
  induction evs generalizing s1 with
  | nil => exact ⟨rfl, fun h => h, [], by simp [run]⟩
  | cons ev evs ih =>
    obtain ⟨hr, hl, extra, ht⟩ :=
      interface_step_frame cmp s1 ev (hev ev (List.mem_cons_self _ _))
    obtain ⟨hr2, hl2, extra2, ht2⟩ :=
      ih (step cmp s1 ev) (fun e he => hev e (List.mem_cons_of_mem _ he))
    have hrun : run cmp s1 (ev :: evs) = run cmp (step cmp s1 ev) evs := rfl
    rw [hrun]
    refine ⟨hr2.trans hr, fun h => hl2 (hl h), extra ++ extra2, ?_⟩
    rw [ht2, ht, List.append_assoc]

theorem fireTimer_middle (s1 : State) (before after : List (List Booking))
    (sorted : List Booking) (ht : s1.timers = before ++ sorted :: after) :
    fireTimer before.length s1 =
      { s1 with optimizedRoute := sorted, loading := false, timers := before ++ after } := by
  unfold fireTimer
  rw [ht, get?_middle, eraseIdx_middle]
  rfl

/-- C9, as the code has it: `optimizeRoute` on `jobs` raises `loading`, queues
one callback carrying the sorted copy of `jobs` behind the pending ones, and
changes nothing else, the displayed route included.  Through every run `evs`
of interface events that follows (no callback firing), the displayed route
stays what it was before the trigger, `loading` stays true and the callback
stays queued at its place.  When that callback then fires, it sets the
displayed route to the sorted copy of `jobs` made at trigger time, whatever the
bookings are by then, lowers `loading`, leaves the queue, and changes nothing
else; if no older callback was pending at the trigger, it is the one an
in-order timeout fires.  Wherever the callback sits in a queue, firing it has
that same effect. -/
theorem optimizeRoute_defers_result (cmp : String → String → Int) (s : State)
    (jobs : List Booking) (evs : List Event) (hev : ∀ ev ∈ evs, ev.view ≠ none) :
    optimizeRoute cmp s jobs =
      { s with loading := true, timers := s.timers ++ [computeRoute cmp jobs] } ∧
    (run cmp (optimizeRoute cmp s jobs) evs).optimizedRoute = s.optimizedRoute ∧
    (run cmp (optimizeRoute cmp s jobs) evs).loading = true ∧
    (∃ later, (run cmp (optimizeRoute cmp s jobs) evs).timers =
        s.timers ++ computeRoute cmp jobs :: later ∧
      fireTimer s.timers.length (run cmp (optimizeRoute cmp s jobs) evs) =
        { run cmp (optimizeRoute cmp s jobs) evs with
          optimizedRoute := computeRoute cmp jobs, loading := false,
          timers := s.timers ++ later } ∧
      (s.timers = [] →
        step cmp (run cmp (optimizeRoute cmp s jobs) evs) (Event.timeout 0) =
          { run cmp (optimizeRoute cmp s jobs) evs with
            optimizedRoute := computeRoute cmp jobs, loading := false,
            timers := later })) ∧
    (∀ (s1 : State) (before after : List (List Booking)),
      fireTimer before.length { s1 with timers := before ++ computeRoute cmp jobs :: after } =
        { s1 with optimizedRoute := computeRoute cmp jobs, loading := false,
                  timers := before ++ after }) := by
  obtain ⟨hr, hl, extra, ht⟩ := interface_run_frame cmp evs (optimizeRoute cmp s jobs) hev
  have htimers : (run cmp (optimizeRoute cmp s jobs) evs).timers =
      s.timers ++ computeRoute cmp jobs :: extra := by
    rw [ht]
    simp [optimizeRoute]
  have hfire := fireTimer_middle (run cmp (optimizeRoute cmp s jobs) evs) s.timers extra
    (computeRoute cmp jobs) htimers
  refine ⟨rfl, hr, hl rfl, ⟨extra, htimers, hfire, ?_⟩, ?_⟩
  · intro hnil
    have hstep : step cmp (run cmp (optimizeRoute cmp s jobs) evs) (Event.timeout 0) =
        fireTimer 0 (run cmp (optimizeRoute cmp s jobs) evs) := rfl
    rw [hnil] at hfire
    rw [hstep]
    simpa using hfire
  · intro s1 before after
    exact fireTimer_middle _ before after _ rfl

theorem optimizeRoute_defers_result_witness :
    optimizeRoute ordinalCompare sequentialTrigger [zebraJob, alphaJob] =
      run ordinalCompare (mounted ordinalCompare) sequentialTrace ∧
    (run ordinalCompare (optimizeRoute ordinalCompare sequentialTrigger [zebraJob, alphaJob])
      [Event.changeCustomer "Ann", Event.changePickup "Lydiard St"]).optimizedRoute =
      [zebraJob] ∧
    (run ordinalCompare (optimizeRoute ordinalCompare sequentialTrigger [zebraJob, alphaJob])
      [Event.changeCustomer "Ann", Event.changePickup "Lydiard St"]).loading = true :=
  ⟨by decide,
   (optimizeRoute_defers_result ordinalCompare sequentialTrigger [zebraJob, alphaJob]
      [Event.changeCustomer "Ann", Event.changePickup "Lydiard St"] (by decide)).2.1,
   (optimizeRoute_defers_result ordinalCompare sequentialTrigger [zebraJob, alphaJob]
      [Event.changeCustomer "Ann", Event.changePickup "Lydiard St"] (by decide)).2.2.1⟩

/-- C9 as stated fails when an older callback is pending at the trigger: in the
state reached by two quick submissions, the second `optimizeRoute` call found
the route empty; the first submission's callback then fires and changes the
displayed route and lowers `loading` while the callback of the second call is
still queued. -/
theorem route_changes_before_own_callback :
    optimizeRoute ordinalCompare overlappingTrigger [zebraJob, alphaJob] =
      run ordinalCompare (mounted ordinalCompare) twoBookingsTrace ∧
    overlappingTrigger.optimizedRoute = [] ∧
    (step ordinalCompare (optimizeRoute ordinalCompare overlappingTrigger [zebraJob, alphaJob])
      (Event.timeout 0)).optimizedRoute = [zebraJob] ∧
    (step ordinalCompare (optimizeRoute ordinalCompare overlappingTrigger [zebraJob, alphaJob])
      (Event.timeout 0)).optimizedRoute ≠ overlappingTrigger.optimizedRoute ∧
    (step ordinalCompare (optimizeRoute ordinalCompare overlappingTrigger [zebraJob, alphaJob])
      (Event.timeout 0)).loading = false ∧
    (step ordinalCompare (optimizeRoute ordinalCompare overlappingTrigger [zebraJob, alphaJob])
      (Event.timeout 0)).timers = [computeRoute ordinalCompare [zebraJob, alphaJob]] :=
  ⟨by decide, by decide, by decide, by decide, by decide, by decide⟩

/-- C10 at the overlapping trace: after two quick submissions and the first
callback, `loading` is false and the displayed route holds only the first
booking, not the sorted order of the two current bookings. -/
theorem stale_route_after_first_callback :
    ReachableInOrder ordinalCompare
      (run ordinalCompare (mounted ordinalCompare) overlappingTrace) ∧
    (run ordinalCompare (mounted ordinalCompare) overlappingTrace).loading = false ∧
    (run ordinalCompare (mounted ordinalCompare) overlappingTrace).bookings =
      [zebraJob, alphaJob] ∧
    (run ordinalCompare (mounted ordinalCompare) overlappingTrace).optimizedRoute =
      [zebraJob] ∧
    computeRoute ordinalCompare
      (run ordinalCompare (mounted ordinalCompare) overlappingTrace).bookings =
      [alphaJob, zebraJob] ∧
    (run ordinalCompare (mounted ordinalCompare) overlappingTrace).timers =
      [[alphaJob, zebraJob]] :=
  ⟨⟨overlappingTrace, by decide, rfl⟩, by decide, by decide, by decide, by decide, by decide⟩

end BookingApp
